import Mathlib

/-!
# Comments Dashboard: verification of the edit-overlay and view-derivation engine

A shallow embedding of the core logic of the comments-dashboard application
(`App.tsx`): the data model (`Comment`, `Post`, the persisted edit overlay),
the startup fetch-and-merge (`fetchData` / `commentsWithEdits`), the edit save
path (`saveEdit`), and the view derivation (`filteredComments`,
`paginatedComments`, `totalPages`, `goToPage`, the pagination button window).

External effects (the two HTTP fetches, `localStorage`, `JSON.parse`) are
modelled by explicit parameters: an `Option` whose `none` case stands for the
corresponding failure (non-2xx status or body-parse failure for a fetch,
absent key or unparseable payload for storage).  JavaScript strings are
modelled by `String`, objects keyed by comment id by association lists with
JavaScript-object update semantics (replace in place, append if new).
-/

namespace CommentsApp

/-- A fetched comment record (`interface Comment` in `App.tsx`). -/
structure Comment where
  id : Nat
  name : String
  email : String
  body : String
  postId : Nat
deriving Repr, DecidableEq

/-- A fetched post record (`interface Post` in `App.tsx`). -/
structure Post where
  id : Nat
  title : String
deriving Repr, DecidableEq

/-- An entry of the persisted edit overlay (`edits[id]` in `App.tsx`):
optional overrides for the two editable fields.  An absent field is `none`. -/
structure EditEntry where
  name : Option String
  body : Option String
deriving Repr, DecidableEq

/-- The default entry used when spreading a missing `savedEdits[id]`
(`{...undefined}` yields the empty object). -/
def EditEntry.empty : EditEntry := ⟨none, none⟩

/-- The persisted overlay mapping (the JSON object stored under the
`"commentEdits"` key), as an association list from comment id to entry.
JavaScript object keys are unique; lookup is `List.lookup`. -/
def Overlay := List (Nat × EditEntry)
deriving Repr, DecidableEq

instance : EmptyCollection Overlay := ⟨([] : List (Nat × EditEntry))⟩

/-- Lookup `overlay[id]`. -/
def Overlay.find (o : Overlay) (id : Nat) : Option EditEntry :=
  List.lookup id o

/-- JavaScript object assignment `overlay[id] = e`: replace the existing
binding in place, or append a new one. -/
def Overlay.set (o : Overlay) (id : Nat) (e : EditEntry) : Overlay :=
  match o with
  | [] => [(id, e)]
  | (k, v) :: rest =>
      if k = id then (id, e) :: rest
      else (k, v) :: Overlay.set rest id e

/-- The two editable fields of a comment. -/
inductive Field where
  | name
  | body
deriving Repr, DecidableEq

/-- Read an editable field from a comment. -/
def Comment.get (c : Comment) (f : Field) : String :=
  match f with
  | .name => c.name
  | .body => c.body

/-- `{ ...comment, [field]: v }`: write an editable field of a comment. -/
def Comment.set (c : Comment) (f : Field) (v : String) : Comment :=
  match f with
  | .name => { c with name := v }
  | .body => { c with body := v }

/-- `{ ...savedEdits[id], [field]: v }`: write a field of an overlay entry,
keeping the other field. -/
def EditEntry.set (e : EditEntry) (f : Field) (v : String) : EditEntry :=
  match f with
  | .name => { e with name := some v }
  | .body => { e with body := some v }

/-- Read a field of an overlay entry (`none` when the override is absent). -/
def EditEntry.get (e : EditEntry) (f : Field) : Option String :=
  match f with
  | .name => e.name
  | .body => e.body

/-- JavaScript `value.trim()`: strip leading and trailing whitespace.
Implemented by structural recursion on the character list so that it
evaluates inside the kernel. -/
def jsTrim (s : String) : String :=
  ⟨List.reverse (List.dropWhile Char.isWhitespace
      (List.reverse (List.dropWhile Char.isWhitespace s.data)))⟩

/-- JavaScript `value.toLowerCase()` (on the ASCII fragment this model
covers): lower-case every character. -/
def jsToLower (s : String) : String :=
  ⟨s.data.map Char.toLower⟩

/-! ## Merge of fetched comments with the overlay (`commentsWithEdits`) -/

/-- One comment of the merge in `fetchData`:
```
const savedEdit = edits[comment.id]
if (savedEdit) {
  return { ...comment,
           name: savedEdit.name || comment.name,
           body: savedEdit.body || comment.body }
}
return comment
```
JavaScript `x || y` falls back to `y` when `x` is absent *or* the empty
string (the only falsy string), which the `Option String` match reproduces. -/
def mergeOne (edits : Overlay) (c : Comment) : Comment :=
  match edits.find c.id with
  | some savedEdit =>
      { c with
        name := match savedEdit.name with
                | some s => if s = "" then c.name else s
                | none => c.name
        body := match savedEdit.body with
                | some s => if s = "" then c.body else s
                | none => c.body }
  | none => c

/-- `commentsData.map(...)` applying the overlay to each fetched comment. -/
def commentsWithEdits (commentsData : List Comment) (edits : Overlay) : List Comment :=
  commentsData.map (mergeOne edits)

/-- Modelled from the spec: the merge as §4.2 words it — “replace `name`/`body`
with the overlay's values **where present**”, i.e. a field that is set in the
overlay entry always wins, whatever string it holds.  Stated for comparison
with the source-derived `mergeOne`. -/
def mergeOneSpec (edits : Overlay) (c : Comment) : Comment :=
  match edits.find c.id with
  | some savedEdit =>
      { c with
        name := savedEdit.name.getD c.name
        body := savedEdit.body.getD c.body }
  | none => c

/-- Modelled from the spec: elementwise `mergeOneSpec`. -/
def commentsWithEditsSpec (commentsData : List Comment) (edits : Overlay) : List Comment :=
  commentsData.map (mergeOneSpec edits)

/-! ## Startup fetch (`fetchData`) -/

/-- The terminal state of the startup effect: either both collections loaded
(with the overlay merged onto the comments), or the single error state set by
the `catch` block. -/
inductive FetchOutcome where
  | loaded (comments : List Comment) (posts : List Post)
  | failed (msg : String)
deriving Repr, DecidableEq

/-- The one user-visible error message (`setError(...)` in the catch). -/
def fetchErrorMsg : String := "Failed to load data. Please try again."

/-- The startup effect `fetchData`.  Parameters model the environment:
`commentsResp` / `postsResp` are `some data` when the request returned a 2xx
status *and* its body parsed, `none` otherwise (either way the code `throw`s
into the catch).  `stored` models `localStorage.getItem("commentEdits")`
followed by `JSON.parse`: `none` when the key is absent (the code then uses
`{}`), `some none` when a payload is present but `JSON.parse` throws,
`some (some edits)` when it parses. -/
def fetchData (commentsResp : Option (List Comment)) (postsResp : Option (List Post))
    (stored : Option (Option Overlay)) : FetchOutcome :=
  match commentsResp, postsResp with
  | some commentsData, some postsData =>
      match stored with
      | none => .loaded (commentsWithEdits commentsData {}) postsData
      | some (some edits) => .loaded (commentsWithEdits commentsData edits) postsData
      | some none => .failed fetchErrorMsg
  | _, _ => .failed fetchErrorMsg

/-! ## Saving an edit (`saveEdit`) -/

/-- The part of the application state that `saveEdit` touches: the in-memory
comment list, the persisted overlay (`none` when the `"commentEdits"` key was
never written), and a count of `localStorage.setItem` calls performed so far
(to observe how many writes an operation issues). -/
structure SaveState where
  comments : List Comment
  store : Option Overlay
  writes : Nat
deriving Repr, DecidableEq

/-- The body of the `prev.map(...)` callback in `saveEdit`, threading the
storage through the traversal: for the comment whose id matches, the code
updates the comment, re-reads the stored mapping
(`JSON.parse(localStorage.getItem("commentEdits") || "{}")`), merges the new
field into that id's entry, and writes the whole mapping back with one
`setItem`. -/
def saveEditStep (id : Nat) (f : Field) (trimmed : String)
    (acc : List Comment × Option Overlay × Nat) (c : Comment) :
    List Comment × Option Overlay × Nat :=
  if c.id = id then
    let updated := c.set f trimmed
    let savedEdits := acc.2.1.getD {}
    let entry := (savedEdits.find id).getD EditEntry.empty
    let savedEdits' := savedEdits.set id (entry.set f trimmed)
    (acc.1 ++ [updated], some savedEdits', acc.2.2 + 1)
  else
    (acc.1 ++ [c], acc.2.1, acc.2.2)

/-- `saveEdit(id, field)` with the current draft `editValue`: a no-op when the
trimmed draft is empty, otherwise the comment-list map described above. -/
def saveEdit (st : SaveState) (id : Nat) (f : Field) (editValue : String) : SaveState :=
  if jsTrim editValue = "" then st
  else
    let r := st.comments.foldl (saveEditStep id f (jsTrim editValue)) ([], st.store, 0)
    { comments := r.1, store := r.2.1, writes := st.writes + r.2.2 }

/-! ## View derivation: filter, pagination, page navigation -/

/-- JavaScript `haystack.includes(needle)`: the needle occurs as a contiguous
substring.  Modelled as `List.IsInfix` on the character lists, made
executable through its `Decidable` instance. -/
def jsIncludes (haystack needle : String) : Bool :=
  decide (needle.data <:+: haystack.data)

/-- The filter predicate of `filteredComments`:
`comment.email.toLowerCase().includes(searchLower) || ...name... || ...body...`. -/
def matchesSearch (searchLower : String) (c : Comment) : Bool :=
  jsIncludes (jsToLower c.email) searchLower
    || jsIncludes (jsToLower c.name) searchLower
    || jsIncludes (jsToLower c.body) searchLower

/-- `filteredComments`: pass everything through when the trimmed term is
empty, otherwise filter by the lowercased (but *untrimmed*) term. -/
def filteredComments (comments : List Comment) (searchTerm : String) : List Comment :=
  if jsTrim searchTerm = "" then comments
  else comments.filter (matchesSearch (jsToLower searchTerm))

/-- `ITEMS_PER_PAGE = 10`. -/
def ITEMS_PER_PAGE : Nat := 10

/-- `paginatedComments`: `filtered.slice(startIndex, startIndex + 10)` with
`startIndex = (currentPage - 1) * 10`.  Pages are 1-based; every reachable
`currentPage` is ≥ 1 (initialised to 1, reset to 1, or clamped by
`goToPage`). -/
def paginatedComments (filtered : List Comment) (currentPage : Nat) : List Comment :=
  ((filtered.drop ((currentPage - 1) * ITEMS_PER_PAGE)).take ITEMS_PER_PAGE)

/-- `totalPages = Math.ceil(filteredComments.length / ITEMS_PER_PAGE)`. -/
def totalPages (filtered : List Comment) : Nat :=
  (filtered.length + (ITEMS_PER_PAGE - 1)) / ITEMS_PER_PAGE

/-- `goToPage`: `Math.max(1, Math.min(page, totalPages))`. -/
def goToPage (tp : Int) (page : Int) : Int :=
  max 1 (min page tp)

/-- The ephemeral view state relevant to search/page interaction. -/
structure ViewState where
  searchTerm : String
  currentPage : Int
deriving Repr, DecidableEq

/-- The effect of the user changing the search term: `setSearchTerm` together
with the `useEffect(() => setCurrentPage(1), [searchTerm])` that fires on any
change of the term. -/
def setSearchTermEvent (st : ViewState) (t : String) : ViewState :=
  { st with searchTerm := t, currentPage := 1 }

/-- The pagination-window IIFE: computes `(startPage, endPage)` of the
numbered buttons.
```
const maxVisiblePages = 5
let startPage = 1
let endPage = Math.min(maxVisiblePages, totalPages)
if (totalPages > maxVisiblePages) {
  if (currentPage <= 3) { startPage = 1; endPage = maxVisiblePages }
  else if (currentPage >= totalPages - 2) {
    startPage = totalPages - maxVisiblePages + 1; endPage = totalPages }
  else { startPage = currentPage - 2; endPage = currentPage + 2 }
}
```
-/
def pageWindow (tp : Int) (currentPage : Int) : Int × Int :=
  if tp > 5 then
    if currentPage ≤ 3 then (1, 5)
    else if currentPage ≥ tp - 2 then (tp - 5 + 1, tp)
    else (currentPage - 2, currentPage + 2)
  else (1, min 5 tp)

/-- The rendered page-number buttons:
`Array.from({length: endPage - startPage + 1}, (_, i) => startPage + i)`. -/
def pageButtons (tp : Int) (currentPage : Int) : List Int :=
  (List.range ((pageWindow tp currentPage).2 - (pageWindow tp currentPage).1 + 1).toNat).map
    (fun i => (pageWindow tp currentPage).1 + Int.ofNat i)

/-! ## Basic lemmas about the overlay operations -/

/-- Looking anything up in the empty overlay yields nothing. -/
theorem Overlay.find_empty (id : Nat) : Overlay.find {} id = none := rfl

/-- Unfolding lookup over a cons cell of the association list. -/
theorem Overlay.find_cons (k : Nat) (v : EditEntry) (tl : List (Nat × EditEntry))
    (j : Nat) :
    Overlay.find ((k, v) :: tl) j = if j = k then some v else Overlay.find tl j := by
  by_cases h : j = k
  · subst h
    simp [Overlay.find, List.lookup]
  · have hb : (j == k) = false := by simp [h]
    simp [Overlay.find, List.lookup, hb, h]

/-- After `overlay[id] = e`, looking up `id` yields `e`. -/
theorem Overlay.find_set_self (o : Overlay) (id : Nat) (e : EditEntry) :
    (o.set id e).find id = some e := by
  induction o with
  | nil => simp [Overlay.set, Overlay.find_cons]
  | cons hd tl ih =>
      obtain ⟨k, v⟩ := hd
      by_cases hk : k = id
      · subst hk
        simp [Overlay.set, Overlay.find_cons]
      · rw [show Overlay.set ((k, v) :: tl) id e = (k, v) :: Overlay.set tl id e by
          simp [Overlay.set, hk]]
        rw [Overlay.find_cons, if_neg (Ne.symm hk)]
        exact ih

/-- `overlay[id] = e` does not disturb the binding of any other key. -/
theorem Overlay.find_set_other (o : Overlay) (id : Nat) (e : EditEntry)
    (j : Nat) (hj : j ≠ id) : (o.set id e).find j = o.find j := by
  induction o with
  | nil =>
      rw [show Overlay.set [] id e = [(id, e)] from rfl, Overlay.find_cons, if_neg hj]
  | cons hd tl ih =>
      obtain ⟨k, v⟩ := hd
      by_cases hk : k = id
      · subst hk
        simp [Overlay.set, Overlay.find_cons, hj]
      · rw [show Overlay.set ((k, v) :: tl) id e = (k, v) :: Overlay.set tl id e by
          simp [Overlay.set, hk]]
        rw [Overlay.find_cons, Overlay.find_cons, ih]

/-- Writing one field of an entry sets exactly that field. -/
theorem EditEntry.get_set_self (e : EditEntry) (f : Field) (v : String) :
    (e.set f v).get f = some v := by
  cases f <;> rfl

/-- Writing one field of an entry leaves the other field alone. -/
theorem EditEntry.get_set_other (e : EditEntry) (f g : Field) (v : String)
    (h : g ≠ f) : (e.set f v).get g = e.get g := by
  cases f <;> cases g <;> first | rfl | exact absurd rfl h

/-- Merging never changes a comment's identifier. -/
theorem mergeOne_id (o : Overlay) (c : Comment) : (mergeOne o c).id = c.id := by
  unfold mergeOne
  cases o.find c.id <;> rfl

/-- The empty overlay is a no-op merge. -/
theorem mergeOne_empty (c : Comment) : mergeOne {} c = c := rfl

/-- The empty overlay is a no-op merge, elementwise over a whole fetch. -/
theorem commentsWithEdits_empty (cs : List Comment) : commentsWithEdits cs {} = cs := by
  induction cs with
  | nil => rfl
  | cons c tl ih =>
      show mergeOne {} c :: commentsWithEdits tl {} = c :: tl
      rw [mergeOne_empty, ih]

/-! ## C1: the merge step -/

/-- A sample fetched comment used for concrete instances. -/
def c0 : Comment := ⟨1, "A", "a@x.com", "hi", 1⟩

/-- Counterexample to C1 as stated: an overlay entry for id 1 whose `name`
override is *present* but equal to `""` is ignored by the merge — the fetched
name `"A"` survives, where the claim (replace by the overlay's value where
present) demands `""`.  The spec-worded merge and the code's merge disagree
on this input. -/
theorem merge_present_empty_ignored_cex :
    commentsWithEdits [c0] [(1, EditEntry.mk (some "") none)] = [c0]
    ∧ commentsWithEditsSpec [c0] [(1, EditEntry.mk (some "") none)]
        ≠ commentsWithEdits [c0] [(1, EditEntry.mk (some "") none)] := by
  constructor
  · rfl
  · decide

/-- C1, amended: the merge produces a new elementwise-merged sequence; a
comment with no overlay entry is unchanged; a comment with an entry keeps its
`id`, `email` and `postId`, takes an overlay field when it is present *and
non-empty*, and keeps the fetched field when the overlay field is absent or
the empty string.  (Inputs are not mutated: the merge is a pure function of
both.) -/
theorem merge_overlay (comments : List Comment) (ov : Overlay) :
    commentsWithEdits comments ov = comments.map (mergeOne ov)
    ∧ (∀ c : Comment, ov.find c.id = none → mergeOne ov c = c)
    ∧ ∀ (c : Comment) (e : EditEntry), ov.find c.id = some e →
        (mergeOne ov c).id = c.id
        ∧ (mergeOne ov c).email = c.email
        ∧ (mergeOne ov c).postId = c.postId
        ∧ (∀ s, e.name = some s → s ≠ "" → (mergeOne ov c).name = s)
        ∧ ((e.name = none ∨ e.name = some "") → (mergeOne ov c).name = c.name)
        ∧ (∀ s, e.body = some s → s ≠ "" → (mergeOne ov c).body = s)
        ∧ ((e.body = none ∨ e.body = some "") → (mergeOne ov c).body = c.body) := by
  refine ⟨rfl, ?_, ?_⟩
  · intro c hc
    unfold mergeOne
    rw [hc]
  · intro c e he
    unfold mergeOne
    rw [he]
    refine ⟨rfl, rfl, rfl, ?_, ?_, ?_, ?_⟩
    · intro s hs hne
      simp [hs, hne]
    · rintro (h | h) <;> simp [h]
    · intro s hs hne
      simp [hs, hne]
    · rintro (h | h) <;> simp [h]

/-- Witness for `merge_overlay` at a concrete comment and overlay. -/
theorem merge_overlay_w :
    (mergeOne [(1, EditEntry.mk (some "X") none)] c0).name = "X"
    ∧ (mergeOne [(1, EditEntry.mk (some "X") none)] c0).body = c0.body := by
  have h := (merge_overlay [c0] [(1, EditEntry.mk (some "X") none)]).2.2 c0
    (EditEntry.mk (some "X") none) (by decide)
  exact ⟨h.2.2.2.1 "X" rfl (by decide), h.2.2.2.2.2.2 (Or.inl rfl)⟩

/-! ## C2: saving a non-empty draft -/

/-- When an overlay entry provides a non-empty override for a field, the
merged comment carries exactly that override in that field. -/
theorem mergeOne_get (o : Overlay) (c : Comment) (e : EditEntry) (f : Field)
    (s : String) (ho : o.find c.id = some e) (hs : e.get f = some s)
    (hne : s ≠ "") : (mergeOne o c).get f = s := by
  cases f
  · simp only [EditEntry.get] at hs
    unfold mergeOne
    rw [ho]
    simp [Comment.get, hs, hne]
  · simp only [EditEntry.get] at hs
    unfold mergeOne
    rw [ho]
    simp [Comment.get, hs, hne]

/-- Folding the save step over comments none of which match the target id
just copies the comments across and leaves storage untouched. -/
theorem foldl_saveEditStep_of_no_match (id : Nat) (f : Field) (v : String) :
    ∀ (comments accC : List Comment) (accS : Option Overlay) (accW : Nat),
      (∀ c ∈ comments, c.id ≠ id) →
      comments.foldl (saveEditStep id f v) (accC, accS, accW)
        = (accC ++ comments, accS, accW) := by
  intro comments
  induction comments with
  | nil =>
      intro accC accS accW _
      simp
  | cons c tl ih =>
      intro accC accS accW h
      have hc : c.id ≠ id := h c (List.mem_cons_self c tl)
      rw [List.foldl_cons,
        show saveEditStep id f v (accC, accS, accW) c = (accC ++ [c], accS, accW) by
          simp [saveEditStep, hc],
        ih (accC ++ [c]) accS accW (fun c' hc' => h c' (List.mem_cons_of_mem c hc'))]
      simp

/-- The per-comment update function of `saveEdit` is the identity on
non-matching comments. -/
theorem map_saveEdit_of_no_match (id : Nat) (f : Field) (v : String) :
    ∀ l : List Comment, (∀ c ∈ l, c.id ≠ id) →
      l.map (fun c => if c.id = id then c.set f v else c) = l := by
  intro l
  induction l with
  | nil =>
      intro _
      rfl
  | cons c tl ih =>
      intro h
      rw [List.map_cons, if_neg (h c (List.mem_cons_self c tl)),
        ih (fun c' h' => h c' (List.mem_cons_of_mem c h'))]

/-- Folding the save step over a comment list in which the target id occurs
exactly once: the matching comment's field is updated in the list; the
stored mapping is replaced (one single write) by the prior mapping whose
entry for the id gains the new field, other entries untouched. -/
theorem foldl_saveEditStep_of_once (id : Nat) (f : Field) (v : String) :
    ∀ (comments accC : List Comment) (accS : Option Overlay) (accW : Nat),
      comments.countP (fun c => decide (c.id = id)) = 1 →
      comments.foldl (saveEditStep id f v) (accC, accS, accW)
        = (accC ++ comments.map (fun c => if c.id = id then c.set f v else c),
           some ((accS.getD {}).set id
             ((((accS.getD {}).find id).getD EditEntry.empty).set f v)),
           accW + 1) := by
  intro comments
  induction comments with
  | nil =>
      intro accC accS accW h
      simp at h
  | cons c tl ih =>
      intro accC accS accW h
      by_cases hc : c.id = id
      · have hd : (if decide (c.id = id) = true then 1 else 0) = 1 := by simp [hc]
        rw [List.countP_cons, hd] at h
        have htl : tl.countP (fun c' => decide (c'.id = id)) = 0 := by omega
        have hnone : ∀ c' ∈ tl, c'.id ≠ id := by
          intro c' hc' heq
          have := List.countP_eq_zero.mp htl c' hc'
          simp [heq] at this
        rw [List.foldl_cons,
          show saveEditStep id f v (accC, accS, accW) c
              = (accC ++ [c.set f v],
                 some ((accS.getD {}).set id
                   ((((accS.getD {}).find id).getD EditEntry.empty).set f v)),
                 accW + 1) by
            simp [saveEditStep, hc],
          foldl_saveEditStep_of_no_match id f v tl _ _ _ hnone,
          List.map_cons, if_pos hc, map_saveEdit_of_no_match id f v tl hnone]
        simp
      · have hd : (if decide (c.id = id) = true then 1 else 0) = 0 := by simp [hc]
        rw [List.countP_cons, hd] at h
        have htl : tl.countP (fun c' => decide (c'.id = id)) = 1 := by omega
        rw [List.foldl_cons,
          show saveEditStep id f v (accC, accS, accW) c = (accC ++ [c], accS, accW) by
            simp [saveEditStep, hc],
          ih (accC ++ [c]) accS accW htl, List.map_cons, if_neg hc]
        simp

/-- C2: saving a draft whose trim is non-empty, for an id occurring (exactly
once) in the comment list, persists `overlay[id][field] = trimmed(value)` in
a single storage write, preserving the entry's other field and every other
id's entry, and a subsequent reload's merge puts the trimmed value back onto
any fetched comment with that id. -/
theorem saveEdit_persists (st : SaveState) (id : Nat) (f : Field) (v : String)
    (hv : jsTrim v ≠ "")
    (hid : st.comments.countP (fun c => decide (c.id = id)) = 1) :
    (saveEdit st id f v).store
        = some ((st.store.getD {}).set id
            ((((st.store.getD {}).find id).getD EditEntry.empty).set f (jsTrim v)))
    ∧ ((saveEdit st id f v).store.getD {}).find id
        = some ((((st.store.getD {}).find id).getD EditEntry.empty).set f (jsTrim v))
    ∧ ((((st.store.getD {}).find id).getD EditEntry.empty).set f (jsTrim v)).get f
        = some (jsTrim v)
    ∧ (∀ g, g ≠ f →
        ((((st.store.getD {}).find id).getD EditEntry.empty).set f (jsTrim v)).get g
          = (((st.store.getD {}).find id).getD EditEntry.empty).get g)
    ∧ (∀ j, j ≠ id →
        ((saveEdit st id f v).store.getD {}).find j = (st.store.getD {}).find j)
    ∧ (saveEdit st id f v).writes = st.writes + 1
    ∧ (∀ (fetched : List Comment) (c : Comment), c ∈ fetched → c.id = id →
        mergeOne ((saveEdit st id f v).store.getD {}) c
            ∈ commentsWithEdits fetched ((saveEdit st id f v).store.getD {})
        ∧ (mergeOne ((saveEdit st id f v).store.getD {}) c).get f = jsTrim v) := by
  have hfold := foldl_saveEditStep_of_once id f (jsTrim v) st.comments [] st.store 0 hid
  have hsave : saveEdit st id f v
      = { comments := st.comments.map (fun c => if c.id = id then c.set f (jsTrim v) else c),
          store := some ((st.store.getD {}).set id
            ((((st.store.getD {}).find id).getD EditEntry.empty).set f (jsTrim v))),
          writes := st.writes + 1 } := by
    unfold saveEdit
    rw [if_neg hv, hfold]
    rfl
  rw [hsave]
  refine ⟨rfl, ?_, EditEntry.get_set_self _ f (jsTrim v), ?_, ?_, rfl, ?_⟩
  · exact Overlay.find_set_self _ id _
  · intro g hg
    exact EditEntry.get_set_other _ f g (jsTrim v) hg
  · intro j hj
    exact Overlay.find_set_other _ id _ j hj
  · intro fetched c hc hcid
    constructor
    · exact List.mem_map_of_mem (mergeOne _) hc
    · refine mergeOne_get _ c
        ((((st.store.getD {}).find id).getD EditEntry.empty).set f (jsTrim v))
        f (jsTrim v) ?_ (EditEntry.get_set_self _ f (jsTrim v)) hv
      rw [hcid]
      exact Overlay.find_set_self _ id _

/-- A concrete state for witnesses: one comment with id 7 and a previously
saved body override. -/
def st0 : SaveState :=
  ⟨[⟨7, "Old", "e@x.com", "b", 1⟩], some [(7, EditEntry.mk none (some "B"))], 2⟩

/-- A freshly fetched comment with id 7, for the reload part of the witness. -/
def c7 : Comment := ⟨7, "Orig", "o@x.com", "orig body", 2⟩

/-- Witness for `saveEdit_persists`: saving `"  Bob  "` as the name of
comment 7 persists the trimmed `"Bob"` with one write, keeps the saved body
override, and merges back onto a fetched comment with id 7. -/
theorem saveEdit_persists_w :
    (saveEdit st0 7 Field.name "  Bob  ").store
        = some [(7, EditEntry.mk (some "Bob") (some "B"))]
    ∧ (saveEdit st0 7 Field.name "  Bob  ").writes = 3
    ∧ (mergeOne ((saveEdit st0 7 Field.name "  Bob  ").store.getD {}) c7).get Field.name
        = "Bob" := by
  have h := saveEdit_persists st0 7 Field.name "  Bob  " (by decide) (by decide)
  refine ⟨?_, ?_, ?_⟩
  · rw [h.1]
    rfl
  · rw [h.2.2.2.2.2.1]
    rfl
  · have := (h.2.2.2.2.2.2 [c7] c7 (List.mem_cons_self c7 []) rfl).2
    rw [this]
    rfl

/-! ## C3: saving an all-whitespace draft is a no-op -/

/-- C3: when the draft's trim is empty, `saveEdit` changes nothing — the
comment list keeps every field and no storage write happens. -/
theorem saveEdit_empty_noop (st : SaveState) (id : Nat) (f : Field)
    (v : String) (hv : jsTrim v = "") : saveEdit st id f v = st := by
  simp [saveEdit, hv]

/-- Witness for `saveEdit_empty_noop`: a whitespace draft on a concrete
state. -/
theorem saveEdit_empty_noop_w :
    saveEdit ⟨[c0], some [(1, EditEntry.mk none (some "B"))], 2⟩ 1 Field.name "   "
      = ⟨[c0], some [(1, EditEntry.mk none (some "B"))], 2⟩ :=
  saveEdit_empty_noop ⟨[c0], some [(1, EditEntry.mk none (some "B"))], 2⟩ 1
    Field.name "   " (by decide)

/-! ## C4: loading the persisted overlay -/

/-- Counterexample to C4 as stated: when both fetches succeed but the stored
overlay payload is present and unparseable, `JSON.parse` throws inside the
`try` block, the catch sets the user-visible error state, and the fetched
data is discarded — the claim demands the empty mapping and no user-visible
error. -/
theorem fetchData_malformed_surfaces_error_cex :
    fetchData (some [c0]) (some []) (some none) = .failed fetchErrorMsg
    ∧ fetchData (some [c0]) (some []) (some none)
        ≠ .loaded (commentsWithEdits [c0] {}) [] := by
  constructor
  · rfl
  · decide

/-- C4, amended: a *missing* payload loads as the empty mapping (which merges
as a no-op), but a present, unparseable payload makes the whole startup land
in the single caught error state — surfaced to the user as the fetch-failure
screen, though never an uncaught crash. -/
theorem fetchData_overlay_load (cs : List Comment) (ps : List Post) :
    fetchData (some cs) (some ps) none = .loaded (commentsWithEdits cs {}) ps
    ∧ commentsWithEdits cs {} = cs
    ∧ fetchData (some cs) (some ps) (some none) = .failed fetchErrorMsg :=
  ⟨rfl, commentsWithEdits_empty cs, rfl⟩

/-! ## C8: no partial success at startup -/

/-- C8: if either of the two startup requests fails, the outcome equals the
outcome of both failing — the single error state — and no data from the
succeeding request reaches the loaded state. -/
theorem fetch_no_partial_success (cs : Option (List Comment))
    (ps : Option (List Post)) (ov : Option (Option Overlay))
    (h : cs = none ∨ ps = none) :
    fetchData cs ps ov = fetchData none none ov
    ∧ fetchData cs ps ov = .failed fetchErrorMsg := by
  rcases h with h | h <;> subst h
  · cases ps <;> exact ⟨rfl, rfl⟩
  · cases cs <;> exact ⟨rfl, rfl⟩

/-- Witness for `fetch_no_partial_success`: posts succeed, comments fail. -/
theorem fetch_no_partial_success_w :
    fetchData none (some [⟨1, "t"⟩]) none = fetchData none none none
    ∧ fetchData none (some [⟨1, "t"⟩]) none = .failed fetchErrorMsg :=
  fetch_no_partial_success none (some [⟨1, "t"⟩]) none (Or.inl rfl)

/-! ## C5 and C10: the search filter -/

/-- A comment whose name is exactly `"alice"`, for concrete filter
instances. -/
def cAlice : Comment := ⟨1, "alice", "", "", 1⟩

/-- C5: an all-whitespace (or empty) term passes every comment through
unchanged; a term with non-empty trim retains exactly the comments one of
whose `email`, `name` or `body` contains the term as a substring after
lower-casing both sides, keeping relative order (the filtered list is a
sublist of the input); hence searching `"ALICE"` and `"alice"` give the same
result on every comment list. -/
theorem filter_spec (comments : List Comment) (t : String) :
    (jsTrim t = "" → filteredComments comments t = comments)
    ∧ (jsTrim t ≠ "" →
        List.Sublist (filteredComments comments t) comments
        ∧ ∀ c, c ∈ filteredComments comments t ↔
            c ∈ comments ∧
              ((jsToLower t).data <:+: (jsToLower c.email).data
                ∨ (jsToLower t).data <:+: (jsToLower c.name).data
                ∨ (jsToLower t).data <:+: (jsToLower c.body).data))
    ∧ filteredComments comments "ALICE" = filteredComments comments "alice" := by
  refine ⟨?_, ?_, ?_⟩
  · intro h
    simp [filteredComments, h]
  · intro h
    refine ⟨?_, ?_⟩
    · rw [filteredComments, if_neg h]
      exact List.filter_sublist comments
    · intro c
      rw [filteredComments, if_neg h, List.mem_filter]
      simp [matchesSearch, jsIncludes, or_assoc]
  · have e1 : jsToLower "ALICE" = jsToLower "alice" := by decide
    have h1 : ¬jsTrim "ALICE" = "" := by decide
    have h2 : ¬jsTrim "alice" = "" := by decide
    rw [filteredComments, if_neg h1, filteredComments, if_neg h2, e1]

/-- Witness for `filter_spec`: a whitespace term passes the sample comment
through, and the term `"LIC"` (matching `"alice"` case-insensitively)
retains it. -/
theorem filter_spec_w :
    filteredComments [cAlice] "   " = [cAlice]
    ∧ cAlice ∈ filteredComments [cAlice] "LIC" := by
  constructor
  · exact (filter_spec [cAlice] "   ").1 (by decide)
  · exact (((filter_spec [cAlice] "LIC").2.1 (by decide)).2 cAlice).mpr
      ⟨List.mem_cons_self cAlice [], Or.inr (Or.inl (by decide))⟩

/-- C10: with a non-empty-trim term the filter matches against the
*untrimmed* lowercased term — a comment passes exactly when a field contains
the whitespace-padded substring — so `" alice "` and `"alice"` can yield
different result sets, exhibited on `cAlice`. -/
theorem filter_untrimmed :
    (∀ (comments : List Comment) (t : String), jsTrim t ≠ "" →
        ∀ c, c ∈ filteredComments comments t ↔
          c ∈ comments ∧
            ((jsToLower t).data <:+: (jsToLower c.email).data
              ∨ (jsToLower t).data <:+: (jsToLower c.name).data
              ∨ (jsToLower t).data <:+: (jsToLower c.body).data))
    ∧ filteredComments [cAlice] " alice " = []
    ∧ filteredComments [cAlice] "alice" = [cAlice] := by
  refine ⟨?_, by decide, by decide⟩
  intro comments t h c
  rw [filteredComments, if_neg h, List.mem_filter]
  simp [matchesSearch, jsIncludes, or_assoc]

/-- Witness for `filter_untrimmed`: the padded term `" lic "` does not
retain the sample comment that the unpadded `"lic"` retains. -/
theorem filter_untrimmed_w : cAlice ∉ filteredComments [cAlice] " lic " := by
  intro hmem
  have h := (filter_untrimmed.1 [cAlice] " lic " (by decide) cAlice).mp hmem
  exact absurd h.2 (by decide)

/-! ## C6: pagination partitions the filtered sequence -/

/-- Concatenating the 10-element chunks starting at 0, 10, 20, … restores the
list, as soon as the number of chunks covers its length. -/
theorem flatten_chunks {α : Type} :
    ∀ (n : Nat) (l : List α), l.length ≤ n * 10 →
      ((List.range n).map (fun i => (l.drop (i * 10)).take 10)).flatten = l := by
  intro n
  induction n with
  | zero =>
      intro l hl
      simp at hl
      simp [hl]
  | succ n ih =>
      intro l hl
      rw [List.range_succ_eq_map, List.map_cons, List.map_map, List.flatten_cons]
      have hcomp : ((fun i => (l.drop (i * 10)).take 10) ∘ (· + 1))
          = fun i => ((l.drop 10).drop (i * 10)).take 10 := by
        funext i
        simp only [Function.comp]
        rw [List.drop_drop]
        congr 2
        omega
      rw [hcomp, ih (l.drop 10) (by simp [List.length_drop]; omega)]
      simp only [Nat.zero_mul, List.drop_zero]
      exact List.take_append_drop 10 l

/-- C6: page `p` of pagination is the slice of the filtered list from index
`(p-1)*10` (inclusive) to `p*10` (exclusive), clamped to the available
length, and the pages `1, 2, …, totalPages` concatenate back to exactly the
filtered list — no gaps, no duplicates. -/
theorem pagination_partition (l : List Comment) :
    (∀ p i : Nat, 1 ≤ p → i < 10 →
        (paginatedComments l p)[i]? = l[(p - 1) * 10 + i]?)
    ∧ (∀ p : Nat, (paginatedComments l p).length
        = min 10 (l.length - (p - 1) * 10))
    ∧ ((List.range (totalPages l)).map (fun i => paginatedComments l (i + 1))).flatten
        = l := by
  refine ⟨?_, ?_, ?_⟩
  · intro p i _ hi
    rw [paginatedComments, ITEMS_PER_PAGE, List.getElem?_take, if_pos hi,
      List.getElem?_drop]
  · intro p
    rw [paginatedComments, ITEMS_PER_PAGE, List.length_take, List.length_drop]
  · have hfun : (fun i => paginatedComments l (i + 1))
        = fun i => (l.drop (i * 10)).take 10 := by
      funext i
      rw [paginatedComments, ITEMS_PER_PAGE]
      simp
    rw [hfun]
    exact flatten_chunks (totalPages l) l (by rw [totalPages, ITEMS_PER_PAGE]; omega)

/-- Witness for `pagination_partition`: the second element of page 2 of a
21-element list is the twelfth element overall. -/
theorem pagination_partition_w :
    (paginatedComments (List.replicate 21 c0) 2)[1]?
      = (List.replicate 21 c0)[11]? :=
  (pagination_partition (List.replicate 21 c0)).1 2 1 (by decide) (by decide)

/-! ## C7: search resets the page; navigation clamps it -/

/-- C7: any change of the search term resets the current page to 1
whatever it was, and navigating to `p` clamps it into `[1, totalPages]` —
within range it is taken as is, below it becomes 1, above it becomes
`totalPages`. -/
theorem search_resets_page_and_nav_clamps :
    (∀ (st : ViewState) (t : String), (setSearchTermEvent st t).currentPage = 1)
    ∧ ∀ tp p : Int, 1 ≤ tp →
        1 ≤ goToPage tp p ∧ goToPage tp p ≤ tp
        ∧ (1 ≤ p → p ≤ tp → goToPage tp p = p)
        ∧ (p < 1 → goToPage tp p = 1)
        ∧ (tp < p → goToPage tp p = tp) := by
  refine ⟨fun _ _ => rfl, ?_⟩
  intro tp p htp
  simp only [goToPage]
  rcases le_total p tp with h | h <;>
    rcases le_total p 1 with h' | h' <;>
      simp [max_def, min_def, h, h'] <;> omega

/-- Witness for `search_resets_page_and_nav_clamps`: changing the term from
page 5 lands on page 1, and navigating to page 7 of 3 clamps to 3. -/
theorem search_resets_page_and_nav_clamps_w :
    (setSearchTermEvent ⟨"old", 5⟩ "new").currentPage = 1
    ∧ goToPage 3 7 = 3 :=
  ⟨search_resets_page_and_nav_clamps.1 ⟨"old", 5⟩ "new",
    (search_resets_page_and_nav_clamps.2 3 7 (by decide)).2.2.2.2 (by decide)⟩

/-! ## C9: the navigation page-number window -/

/-- Counterexample to C9 as stated: with 10 total pages, current page 4 is
among the first 5 pages, yet the rendered window is `[2, 6]` — it does not
start at 1.  The code widens/anchors the window only for `currentPage ≤ 3`
(and symmetrically `currentPage ≥ totalPages - 2`), not for the first (last)
five pages. -/
theorem pageWindow_first_five_cex :
    pageWindow 10 4 = (2, 6) ∧ (pageWindow 10 4).1 ≠ 1 := by
  constructor
  · rfl
  · decide

/-- C9, amended: at most 5 page buttons are ever exposed; when
`totalPages ≤ 5` every page 1..totalPages gets a button; when
`totalPages > 5` the window is `[1, 5]` for `currentPage ≤ 3`,
`[totalPages-4, totalPages]` for `currentPage ≥ totalPages - 2`, and
`[currentPage-2, currentPage+2]` in between. -/
theorem pageWindow_spec (tp cp : Int) :
    (pageButtons tp cp).length ≤ 5
    ∧ (1 ≤ tp → tp ≤ 5 →
        pageButtons tp cp = (List.range tp.toNat).map (fun i => 1 + Int.ofNat i))
    ∧ (5 < tp →
        (cp ≤ 3 → pageWindow tp cp = (1, 5))
        ∧ (tp - 2 ≤ cp → pageWindow tp cp = (tp - 4, tp))
        ∧ (3 < cp → cp < tp - 2 → pageWindow tp cp = (cp - 2, cp + 2))) := by
  refine ⟨?_, ?_, ?_⟩
  · rw [pageButtons, List.length_map, List.length_range, pageWindow]
    split
    · split
      · dsimp only
        omega
      · split <;> (dsimp only; omega)
    · dsimp only
      omega
  · intro h1 h5
    have hw : pageWindow tp cp = (1, tp) := by
      rw [pageWindow, if_neg (by omega), min_eq_right h5]
    rw [pageButtons, hw]
    dsimp only
    rw [show tp - 1 + 1 = tp by ring]
  · intro h5
    refine ⟨?_, ?_, ?_⟩
    · intro h3
      rw [pageWindow, if_pos (by omega), if_pos h3]
    · intro hcp
      rw [pageWindow, if_pos (by omega), if_neg (by omega), if_pos (by omega),
        show tp - 5 + 1 = tp - 4 by ring]
    · intro h3 h2
      rw [pageWindow, if_pos (by omega), if_neg (by omega), if_neg (by omega)]

/-- Witness for `pageWindow_spec`: 4 total pages show buttons 1–4; 10 total
pages with current page 7 show the centered window. -/
theorem pageWindow_spec_w :
    pageButtons 4 2 = [1, 2, 3, 4]
    ∧ pageWindow 10 7 = (5, 9) := by
  constructor
  · rw [(pageWindow_spec 4 2).2.1 (by decide) (by decide)]
    rfl
  · exact ((pageWindow_spec 10 7).2.2 (by decide)).2.2 (by decide) (by decide)

end CommentsApp
